import Mathlib

set_option linter.unusedVariables false
set_option maxRecDepth 8192

namespace AvmVM

/-! Shallow embedding of the AVM transaction-processing core (vm.go):
UTXO resolution through undecided ancestors, the asset-capability
cache, transfer verification, the batch scheduler, and the
coin-selection algorithms (Spend, SpendAll, Mint). -/

/-- Transaction and asset identifiers (`ids.ID`) are abstracted as
naturals throughout.  The zero value `ids.ID{}`: -/
def zeroID : Nat := 0

/-- `choices.Status` of a transaction. -/
inductive Status
  | unknown
  | processing
  | accepted
  | rejected
deriving DecidableEq, Repr

/-- `Status.Decided()`: accepted or rejected. -/
def Status.Decided : Status → Bool
  | .accepted => true
  | .rejected => true
  | _ => false

/-- `Status.Fetched()`: processing, or decided. -/
def Status.Fetched : Status → Bool
  | .processing => true
  | s => s.Decided

/-- `djtx.UTXOID`: the locator of a UTXO, `(source tx, output index)`.
`InputSource()` returns exactly these two fields; `InputID()` hashes
them injectively, so the pair itself serves as the state key. -/
structure UTXOID where
  txID : Nat
  outputIndex : Nat
deriving DecidableEq, Repr

/-- `djtx.UTXO`: locator, asset, and an opaque output (`utxo.Out`),
abstracted as a token consumed by the keychain / fx verifiers. -/
structure UTXO where
  utxoID : UTXOID
  assetID : Nat
  out : Nat
deriving DecidableEq, Repr

/-- The error values surfaced by the embedded functions
(`errMissingUTXO`, `errInvalidUTXO`, `errUnknownFx`,
`errIncompatibleFx`, `errAssetIDMismatch`, the fmt.Errorf
insufficient-funds error of `Spend`, `errSpendOverflow`,
`errAddressesCantMintAsset`, `errBootstrapping`, and opaque
errors bubbled up from collaborators). -/
inductive VMErr
  | missingUTXO
  | invalidUTXO
  | unknownFx
  | incompatibleFx
  | assetIDMismatch
  | insufficientFunds (asset : Nat) (want has : Nat)
  | spendOverflow
  | cantMintAsset
  | bootstrapping
  | other (code : Nat)
deriving DecidableEq, Repr

/-- The read-only surroundings of `VM.getUTXO`: committed state
(`vm.state.GetUTXO`) and the `UniqueTx` view of any transaction id —
whether `verifyWithoutCacheWrites` succeeds on it, its `Status()`,
and its declared outputs `UTXOs()`.  These live in collaborator
packages, so they are abstracted as functions. -/
structure TxEnv where
  stateUTXO : UTXOID → Option UTXO
  verifyOK : Nat → Bool
  txStatus : Nat → Status
  txUTXOs : Nat → List UTXO

/-- `VM.getUTXO`: committed state first; on a miss, re-verify the
input's source as an ancestor transaction, fail `errMissingUTXO` if
verification fails or the ancestor is decided, fail `errInvalidUTXO`
if the output index is out of range of the ancestor's declared
outputs (`int(inputIndex) < 0` is vacuous for a uint32 index), and
otherwise return the declared output at that index. -/
def getUTXO (vm : TxEnv) (utxoID : UTXOID) : Except VMErr UTXO :=
  match vm.stateUTXO utxoID with
  | some utxo => .ok utxo
  | none =>
    let inputTx := utxoID.txID
    let inputIndex := utxoID.outputIndex
    if ¬ vm.verifyOK inputTx then
      .error .missingUTXO
    else if (vm.txStatus inputTx).Decided then
      .error .missingUTXO
    else
      let parentUTXOs := vm.txUTXOs inputTx
      if h : parentUTXOs.length ≤ inputIndex then
        .error .invalidUTXO
      else
        .ok (parentUTXOs.get ⟨inputIndex, by omega⟩)

/-- C1: UTXO resolution (getUTXO).  A UTXO present in committed state
is returned as is; on a miss, spending an output of an undecided
ancestor that re-verifies succeeds with the declared output at the
given index, spending from a transaction already marked Rejected
fails with MissingUTXO, and an out-of-range output index on an
undecided ancestor fails with InvalidUTXO. -/
theorem getUTXO_spec (vm : TxEnv) (uid : UTXOID) :
    (∀ u, vm.stateUTXO uid = some u → getUTXO vm uid = .ok u) ∧
    (vm.stateUTXO uid = none → vm.verifyOK uid.txID = true →
      (vm.txStatus uid.txID).Decided = false →
      ∀ h : uid.outputIndex < (vm.txUTXOs uid.txID).length,
        getUTXO vm uid = .ok ((vm.txUTXOs uid.txID).get ⟨uid.outputIndex, h⟩)) ∧
    (vm.stateUTXO uid = none → vm.txStatus uid.txID = .rejected →
      getUTXO vm uid = .error .missingUTXO) ∧
    (vm.stateUTXO uid = none → vm.verifyOK uid.txID = true →
      (vm.txStatus uid.txID).Decided = false →
      (vm.txUTXOs uid.txID).length ≤ uid.outputIndex →
      getUTXO vm uid = .error .invalidUTXO) := by
  refine ⟨?_, ?_, ?_, ?_⟩
  · intro u hu
    simp [getUTXO, hu]
  · intro hmiss hver hdec h
    simp [getUTXO, hmiss, hver, hdec, Nat.not_le_of_lt h]
  · intro hmiss hrej
    by_cases hver : vm.verifyOK uid.txID
    · simp [getUTXO, hmiss, hver, hrej, Status.Decided]
    · simp [getUTXO, hmiss, hver]
  · intro hmiss hver hdec h
    simp [getUTXO, hmiss, hver, hdec, h]

/-- A concrete environment exercising the branches of `getUTXO`:
no committed UTXOs, every transaction re-verifies, transaction 9 is
rejected, every other transaction is processing with one declared
output. -/
def txEnv0 : TxEnv where
  stateUTXO := fun _ => none
  verifyOK := fun _ => true
  txStatus := fun i => if i == 9 then .rejected else .processing
  txUTXOs := fun _ => [⟨⟨7, 0⟩, 3, 42⟩]

theorem getUTXO_spec_witness :
    getUTXO txEnv0 ⟨7, 0⟩ = .ok ⟨⟨7, 0⟩, 3, 42⟩ ∧
    getUTXO txEnv0 ⟨9, 0⟩ = .error .missingUTXO ∧
    getUTXO txEnv0 ⟨7, 5⟩ = .error .invalidUTXO := by
  refine ⟨?_, ?_, ?_⟩
  · exact (getUTXO_spec txEnv0 ⟨7, 0⟩).2.1 rfl rfl (by decide) (by decide)
  · exact (getUTXO_spec txEnv0 ⟨9, 0⟩).2.2.1 rfl (by decide)
  · exact (getUTXO_spec txEnv0 ⟨7, 5⟩).2.2.2 rfl rfl (by decide) (by decide)

/-! ### Asset-capability cache (`verifyFxUsage`) -/

/-- `assetToFxCacheSize` (vm.go). -/
def assetToFxCacheSize : Nat := 1024

/-- The `assetToFxCache` LRU, as an association list with the most
recently used entry first. -/
abbrev FxCache := List (Nat × Nat)

/-- `cache.LRU.Get`: a hit promotes the entry to most recently used. -/
def cacheGet (c : FxCache) (k : Nat) : Option Nat × FxCache :=
  match c.find? (fun p => p.1 == k) with
  | some p => (some p.2, p :: c.filter (fun q => q.1 != k))
  | none => (none, c)

/-- `cache.LRU.Put`: insert at most recently used, evicting beyond
the fixed capacity. -/
def cachePut (c : FxCache) (k : Nat) (v : Nat) : FxCache :=
  ((k, v) :: c.filter (fun q => q.1 != k)).take assetToFxCacheSize

/-- `ids.BitSet.Add` on a uint64 bitset (a shift by 64 or more
produces zero in Go, so such an index is never recorded). -/
def bsAdd (b : Nat) (i : Nat) : Nat :=
  b ||| (if i < 64 then 2 ^ i else 0)

/-- `ids.BitSet.Contains` on a uint64 bitset. -/
def bsContains (b : Nat) (i : Nat) : Bool :=
  if i < 64 then b.testBit i else false

/-- What `verifyFxUsage` reads about an asset id: the `Status()` of
its creation transaction's `UniqueTx`, and — when that transaction is
a `CreateAssetTx` — the `FxIndex` of each of its declared states
(`none` models a transaction that is not an asset creation). -/
structure FxEnv where
  txStatus : Nat → Status
  createAssetStates : Nat → Option (List Nat)

/-- `VM.verifyFxUsage`: consult the cache; on a miss, require the
creation transaction's status to be fetched, cast it to a
`CreateAssetTx`, build a bitset from the declared states that match
the queried `fxID`, memoize it, and answer from it. -/
def verifyFxUsage (env : FxEnv) (c : FxCache) (fxID : Nat) (assetID : Nat) :
    Bool × FxCache :=
  match cacheGet c assetID with
  | (some fxIDs, c') => (bsContains fxIDs fxID, c')
  | (none, c') =>
    if ¬ (env.txStatus assetID).Fetched then (false, c')
    else
      match env.createAssetStates assetID with
      | none => (false, c')
      | some states =>
        let fxIDs := states.foldl
          (fun acc stFx => if stFx == fxID then bsAdd acc fxID else acc) 0
        (bsContains fxIDs fxID, cachePut c' assetID fxIDs)

/-- Direct re-derivation from the creation transaction's declared
states, as the spec describes it: the asset supports extension index
`fxID` iff some declared state names that index. -/
def derivedSupports (env : FxEnv) (fxID : Nat) (assetID : Nat) : Bool :=
  match env.createAssetStates assetID with
  | none => false
  | some states => states.contains fxID

/-- An asset (id 5) whose creation transaction is known (processing)
and declares states for extension indices 0 and 1. -/
def fxEnv2 : FxEnv where
  txStatus := fun i => if i == 5 then .processing else .unknown
  createAssetStates := fun i => if i == 5 then some [0, 1] else none

/-- C2: the memoized bitset records only the extension index that was
queried first, not all supported indices: after `supports(5, 0)` the
cache holds bitset `1` (bit 0 only), and a second call
`supports(5, 1)` answers `false` from the cache even though direct
re-derivation from the declared states — and a cold-cache call —
answer `true`.  The cached answer is neither stable across extension
indices nor equal to re-derivation. -/
theorem verifyFxUsage_cache_divergence :
    (verifyFxUsage fxEnv2 [] 0 5).1 = true ∧
    (verifyFxUsage fxEnv2 [] 0 5).2 = [(5, 1)] ∧
    (verifyFxUsage fxEnv2 (verifyFxUsage fxEnv2 [] 0 5).2 1 5).1 = false ∧
    (verifyFxUsage fxEnv2 [] 1 5).1 = true ∧
    derivedSupports fxEnv2 1 5 = true := by
  decide

/-! ### Batch scheduler (`issueTx`, `FlushTxs`, `PendingTxs`) -/

/-- `batchSize` (vm.go). -/
def batchSize : Nat := 30

/-- The scheduler's state: the pending slice `vm.txs`, whether the
batch timer is armed (`timer.SetTimeoutIn` arms it, `timer.Cancel`
disarms it), and the number of `common.PendingTxs` messages sent so
far on the `toEngine` channel. -/
structure SchedState where
  txs : List Nat
  timerArmed : Bool
  signals : Nat
deriving DecidableEq, Repr

/-- The initial scheduler state. -/
def schedInit : SchedState := ⟨[], false, 0⟩

/-- `VM.FlushTxs`: cancel the timer; if the pending slice is
non-empty, attempt a non-blocking send to the engine — `free` tells
whether the channel can accept the message; when it cannot, the
message is dropped and the timeout re-armed.  The pending slice is
left untouched. -/
def FlushTxs (s : SchedState) (free : Bool) : SchedState :=
  let s' := { s with timerArmed := false }
  if s'.txs.isEmpty then s'
  else if free then { s' with signals := s'.signals + 1 }
  else { s' with timerArmed := true }

/-- `VM.issueTx`: append to the pending slice; at exactly `batchSize`
flush immediately; a first transaction arms the batch timeout. -/
def issueTx (s : SchedState) (t : Nat) (free : Bool) : SchedState :=
  let s' := { s with txs := s.txs ++ [t] }
  if s'.txs.length == batchSize then FlushTxs s' free
  else if s'.txs.length == 1 then { s' with timerArmed := true }
  else s'

/-- `VM.PendingTxs`: cancel the timer and atomically drain the
pending slice. -/
def PendingTxs (s : SchedState) : List Nat × SchedState :=
  (s.txs, { s with timerArmed := false, txs := [] })

/-- The events driving the scheduler: a transaction issued (with the
engine channel free or congested), the engine pulling the batch, and
the batch timer firing (which runs `FlushTxs`). -/
inductive SchedEvent
  | issue (t : Nat) (free : Bool)
  | pull
  | timerFire (free : Bool)
deriving DecidableEq, Repr

/-- One scheduler transition. -/
def schedStep (s : SchedState) : SchedEvent → SchedState
  | .issue t free => issueTx s t free
  | .pull => (PendingTxs s).2
  | .timerFire free => FlushTxs s free

/-- A run of the scheduler from the initial state. -/
def schedRun (es : List SchedEvent) : SchedState :=
  es.foldl schedStep schedInit

/-- The 31-transaction scenario: thirty issues with the channel free,
the engine pulling the signalled batch, then a thirty-first issue. -/
def sched31 : List SchedEvent :=
  ((List.range 30).map (fun i => SchedEvent.issue i true)) ++
    [SchedEvent.pull, SchedEvent.issue 30 true]

/-- C5: every flush leaves the already-accumulated pending
transactions untouched; an empty pending slice means the flush only
cancels the timer and sends nothing; a non-empty slice with a free
channel sends exactly one signal and leaves the timer cancelled; a
congested channel drops the signal (no send) and re-arms the timeout
instead of blocking. -/
theorem FlushTxs_spec (s : SchedState) (free : Bool) :
    (FlushTxs s free).txs = s.txs ∧
    (s.txs = [] →
      FlushTxs s free = { s with timerArmed := false }) ∧
    (s.txs ≠ [] → free = true →
      (FlushTxs s free).signals = s.signals + 1 ∧
      (FlushTxs s free).timerArmed = false) ∧
    (s.txs ≠ [] → free = false →
      (FlushTxs s free).signals = s.signals ∧
      (FlushTxs s free).timerArmed = true) := by
  refine ⟨?_, ?_, ?_, ?_⟩
  · by_cases h : s.txs.isEmpty <;> cases free <;>
      simp [FlushTxs, h]
  · intro h
    simp [FlushTxs, h]
  · intro h hf
    subst hf
    simp [FlushTxs, List.isEmpty_iff, h]
  · intro h hf
    subst hf
    simp [FlushTxs, List.isEmpty_iff, h]

theorem FlushTxs_spec_witness :
    (FlushTxs ⟨[3, 4], true, 0⟩ false).txs = [3, 4] ∧
    FlushTxs ⟨[], true, 0⟩ true = ⟨[], false, 0⟩ ∧
    (FlushTxs ⟨[3, 4], true, 0⟩ true).signals = 1 ∧
    (FlushTxs ⟨[3, 4], true, 0⟩ false).timerArmed = true := by
  refine ⟨(FlushTxs_spec ⟨[3, 4], true, 0⟩ false).1, ?_, ?_, ?_⟩
  · exact (FlushTxs_spec ⟨[], true, 0⟩ true).2.1 rfl
  · exact ((FlushTxs_spec ⟨[3, 4], true, 0⟩ true).2.2.1 (by decide) rfl).1
  · exact ((FlushTxs_spec ⟨[3, 4], true, 0⟩ false).2.2.2 (by decide) rfl).2

/-- C4: the batch bound.  Each issue grows the pending slice by one,
so a batch below the bound never jumps past it; an issue into an
empty batch arms the timeout; the issue that reaches exactly
`batchSize` (30) flushes immediately (a signal is sent when the
channel is free); and in the 31-transaction scenario no signal has
been sent after 29 issues, exactly one after the 30th, and the 31st
transaction starts a fresh pending window with the timer armed. -/
theorem issueTx_batch_bound (s : SchedState) (t : Nat) (free : Bool) :
    ((issueTx s t free).txs.length = s.txs.length + 1 ∨
      (s.txs.length + 1 = batchSize ∧
        (issueTx s t free).txs.length ≤ batchSize)) ∧
    (s.txs = [] → (issueTx s t free).timerArmed = true ∧
      (issueTx s t free).txs = [t]) ∧
    (s.txs.length + 1 = batchSize → free = true →
      (issueTx s t free).signals = s.signals + 1 ∧
      (issueTx s t free).timerArmed = false) ∧
    (schedRun (sched31.take 29)).signals = 0 ∧
    (schedRun (sched31.take 30)).signals = 1 ∧
    (schedRun sched31).signals = 1 ∧
    (schedRun sched31).txs = [30] ∧
    (schedRun sched31).timerArmed = true := by
  refine ⟨?_, ?_, ?_, by decide, by decide, by decide, by decide, by decide⟩
  · left
    by_cases h : (s.txs ++ [t]).length == batchSize
    · have := (FlushTxs_spec { s with txs := s.txs ++ [t] } free).1
      simp only [issueTx, h, if_pos]
      simp_all
    · by_cases h1 : (s.txs ++ [t]).length == 1 <;> simp_all [issueTx]
  · intro h
    simp [issueTx, h, batchSize]
  · intro h hf
    subst hf
    have hlen : (s.txs ++ [t]).length == batchSize := by
      simp [Nat.beq_eq, h]
    have hne : (s.txs ++ [t]).isEmpty = false := by
      simp
    simp only [issueTx, hlen, if_pos, FlushTxs, hne]
    simp

/-- A scheduler state with 29 pending transactions and the timer
armed. -/
def sched29 : SchedState := ⟨List.range 29, true, 0⟩

theorem issueTx_batch_bound_witness :
    (issueTx ⟨[], false, 0⟩ 7 true).timerArmed = true ∧
    (issueTx sched29 29 true).signals = sched29.signals + 1 ∧
    (issueTx sched29 29 true).timerArmed = false := by
  refine ⟨((issueTx_batch_bound ⟨[], false, 0⟩ 7 true).2.1 rfl).1, ?_, ?_⟩
  · exact ((issueTx_batch_bound sched29 29 true).2.2.1 (by decide) rfl).1
  · exact ((issueTx_batch_bound sched29 29 true).2.2.1 (by decide) rfl).2

/-! ### Coin selection (`Spend`, `SpendAll`) -/

/-- The largest uint64 value. -/
def u64max : Nat := 2 ^ 64 - 1

/-- `safemath.Add64`: checked uint64 addition, `none` on overflow. -/
def add64 (a b : Nat) : Option Nat :=
  if u64max < a + b then none else some (a + b)

/-- The outcome of `kc.Spend(utxo.Out, time)` followed by the
`djtx.TransferableIn` cast in `Spend`/`SpendAll`: the keychain cannot
authorize the output, or it can but the produced input carries no
amount, or it yields a transferable input with an amount and the
signer keys. -/
inductive KcSpendResult
  | cantSpend
  | noAmount (signers : List Nat)
  | transferIn (amount : Nat) (signers : List Nat)
deriving DecidableEq, Repr

/-- The keychain, abstracted as the deterministic outcome of
`kc.Spend` per output token and clock reading. -/
structure SpendEnv where
  kcSpend : Nat → Nat → KcSpendResult

/-- A per-asset amount map (`map[ids.ID]uint64`), as an association
list. -/
abbrev AmtMap := List (Nat × Nat)

/-- Go map read with the zero value on a missing key. -/
def lookupAmt (m : AmtMap) (a : Nat) : Nat :=
  match m.find? (fun p => p.1 == a) with
  | some p => p.2
  | none => 0

/-- Go map write. -/
def setAmt (m : AmtMap) (a : Nat) (v : Nat) : AmtMap :=
  match m with
  | [] => [(a, v)]
  | p :: rest => if p.1 == a then (a, v) :: rest else p :: setAmt rest a v

/-- A `djtx.TransferableInput` as assembled by the coin selectors:
the consumed locator, the asset, and the amount its inner
transferable input carries. -/
structure TransferableInput where
  utxoID : UTXOID
  assetID : Nat
  amount : Nat
deriving DecidableEq, Repr

/-- The canonical deterministic ordering on UTXO locators used by
`djtx.SortTransferableInputsWithSigners`: by source transaction id,
then by output index. -/
def locLE (a b : TransferableInput) : Prop :=
  a.utxoID.txID < b.utxoID.txID ∨
    (a.utxoID.txID = b.utxoID.txID ∧ a.utxoID.outputIndex ≤ b.utxoID.outputIndex)

instance : DecidableRel locLE := fun a b => by
  unfold locLE
  infer_instance

/-- The locator ordering lifted to an input paired with its signer
key set (the two slices are sorted in tandem). -/
def pairLE (p q : TransferableInput × List Nat) : Prop :=
  locLE p.1 q.1

instance : DecidableRel pairLE := fun p q => by
  unfold pairLE
  infer_instance

instance : IsTotal (TransferableInput × List Nat) pairLE where
  total p q := by
    simp only [pairLE, locLE]
    omega

instance : IsTrans (TransferableInput × List Nat) pairLE where
  trans p q r hpq hqr := by
    simp only [pairLE, locLE] at hpq hqr ⊢
    omega

/-- `djtx.SortTransferableInputsWithSigners`: sorts the input slice
and the parallel signer slice in tandem by the locator ordering. -/
def sortInputsWithSigners (ins : List TransferableInput) (keys : List (List Nat)) :
    List TransferableInput × List (List Nat) :=
  let sorted := List.insertionSort pairLE (ins.zip keys)
  (sorted.map Prod.fst, sorted.map Prod.snd)

/-- The scan loop of `VM.Spend`: skip assets already fully funded,
skip outputs the keychain cannot authorize and inputs without an
amount, accumulate with checked addition (an overflow aborts the
whole call with `errSpendOverflow`), and collect the input and its
signers. -/
def SpendLoop (env : SpendEnv) (time : Nat) (amounts : AmtMap) :
    List UTXO → AmtMap → List TransferableInput → List (List Nat) →
    Except VMErr (AmtMap × List TransferableInput × List (List Nat))
  | [], spent, ins, keys => .ok (spent, ins, keys)
  | utxo :: rest, spent, ins, keys =>
    let assetID := utxo.assetID
    let amount := lookupAmt amounts assetID
    let amountSpent := lookupAmt spent assetID
    if amount ≤ amountSpent then
      SpendLoop env time amounts rest spent ins keys
    else
      match env.kcSpend utxo.out time with
      | .cantSpend => SpendLoop env time amounts rest spent ins keys
      | .noAmount _ => SpendLoop env time amounts rest spent ins keys
      | .transferIn amt signers =>
        match add64 amountSpent amt with
        | none => .error .spendOverflow
        | some newAmountSpent =>
          SpendLoop env time amounts rest (setAmt spent assetID newAmountSpent)
            (ins ++ [⟨utxo.utxoID, assetID, amt⟩]) (keys ++ [signers])

/-- `VM.Spend`: scan, then require every requested asset to be fully
funded, then sort.  The quadruple mirrors Go's multi-value return
`(amountsSpent, ins, keys, err)`; every failure is `nil, nil, nil,
err`. -/
def Spend (env : SpendEnv) (time : Nat) (utxos : List UTXO) (amounts : AmtMap) :
    AmtMap × List TransferableInput × List (List Nat) × Option VMErr :=
  match SpendLoop env time amounts utxos [] [] [] with
  | .error e => ([], [], [], some e)
  | .ok (spent, ins, keys) =>
    match amounts.find? (fun p => decide (lookupAmt spent p.1 < p.2)) with
    | some p => ([], [], [], some (.insufficientFunds p.1 p.2 (lookupAmt spent p.1)))
    | none =>
      let (ins', keys') := sortInputsWithSigners ins keys
      (spent, ins', keys', none)

/-- The scan loop of `VM.SpendAll`: like `Spend`'s loop but with no
target amounts — every spendable amount-carrying output is taken. -/
def SpendAllLoop (env : SpendEnv) (time : Nat) :
    List UTXO → AmtMap → List TransferableInput → List (List Nat) →
    Except VMErr (AmtMap × List TransferableInput × List (List Nat))
  | [], spent, ins, keys => .ok (spent, ins, keys)
  | utxo :: rest, spent, ins, keys =>
    let assetID := utxo.assetID
    let amountSpent := lookupAmt spent assetID
    match env.kcSpend utxo.out time with
    | .cantSpend => SpendAllLoop env time rest spent ins keys
    | .noAmount _ => SpendAllLoop env time rest spent ins keys
    | .transferIn amt signers =>
      match add64 amountSpent amt with
      | none => .error .spendOverflow
      | some newAmountSpent =>
        SpendAllLoop env time rest (setAmt spent assetID newAmountSpent)
          (ins ++ [⟨utxo.utxoID, assetID, amt⟩]) (keys ++ [signers])

/-- `VM.SpendAll`. -/
def SpendAll (env : SpendEnv) (time : Nat) (utxos : List UTXO) :
    AmtMap × List TransferableInput × List (List Nat) × Option VMErr :=
  match SpendAllLoop env time utxos [] [] [] with
  | .error e => ([], [], [], some e)
  | .ok (spent, ins, keys) =>
    let (ins', keys') := sortInputsWithSigners ins keys
    (spent, ins', keys', none)

/-- The summed amount a list of selected inputs spends of an asset. -/
def sumAsset (ins : List TransferableInput) (a : Nat) : Nat :=
  (ins.map (fun i => if i.assetID == a then i.amount else 0)).sum


lemma lookupAmt_cons (p : Nat × Nat) (rest : AmtMap) (b : Nat) :
    lookupAmt (p :: rest) b = if p.1 = b then p.2 else lookupAmt rest b := by
  by_cases h : p.1 = b
  · simp [lookupAmt, List.find?, show (p.1 == b) = true by simpa using h, h]
  · simp [lookupAmt, List.find?, show (p.1 == b) = false by simpa using h, h]

lemma lookupAmt_setAmt (m : AmtMap) (a v b : Nat) :
    lookupAmt (setAmt m a v) b = if b = a then v else lookupAmt m b := by
  induction m with
  | nil =>
    by_cases h : b = a
    · simp [setAmt, lookupAmt_cons, h]
    · simp [setAmt, lookupAmt_cons, h, lookupAmt,
        show ¬ a = b from fun hh => h hh.symm]
  | cons p rest ih =>
    by_cases hpa : p.1 = a
    · have hb : (p.1 == a) = true := by simpa using hpa
      by_cases hba : b = a
      · simp [setAmt, hb, lookupAmt_cons, hba]
      · simp [setAmt, hb, lookupAmt_cons, hba,
          show ¬ a = b from fun hh => hba hh.symm,
          show ¬ p.1 = b from hpa ▸ fun hh => hba hh.symm]
    · have hb : (p.1 == a) = false := by simpa using hpa
      by_cases hpb : p.1 = b
      · have hba : ¬ b = a := fun h => hpa (by rw [hpb, h])
        simp [setAmt, hb, lookupAmt_cons, hpb, hba]
      · simp [setAmt, hb, lookupAmt_cons, hpb, ih]

lemma sumAsset_append (ins : List TransferableInput) (i : TransferableInput) (a : Nat) :
    sumAsset (ins ++ [i]) a = sumAsset ins a + (if i.assetID == a then i.amount else 0) := by
  simp [sumAsset]

lemma sumAsset_perm {l₁ l₂ : List TransferableInput} (h : l₁.Perm l₂) (a : Nat) :
    sumAsset l₁ a = sumAsset l₂ a :=
  (h.map _).sum_eq

/-- Loop invariant of `SpendLoop`: the running per-asset totals agree
with the amounts summed over the inputs selected so far. -/
lemma SpendLoop_spent_eq_sum (env : SpendEnv) (time : Nat) (amounts : AmtMap) :
    ∀ (utxos : List UTXO) (spent : AmtMap) (ins : List TransferableInput)
      (keys : List (List Nat)) spent' ins' keys',
      SpendLoop env time amounts utxos spent ins keys = .ok (spent', ins', keys') →
      (∀ a, lookupAmt spent a = sumAsset ins a) →
      (∀ a, lookupAmt spent' a = sumAsset ins' a)
  | [], spent, ins, keys, spent', ins', keys', h, hinv => by
    simp only [SpendLoop, Except.ok.injEq, Prod.mk.injEq] at h
    obtain ⟨h1, h2, h3⟩ := h
    subst h1; subst h2; subst h3
    exact hinv
  | utxo :: rest, spent, ins, keys, spent', ins', keys', h, hinv => by
    simp only [SpendLoop] at h
    split at h
    · exact SpendLoop_spent_eq_sum env time amounts rest spent ins keys _ _ _ h hinv
    · split at h
      · exact SpendLoop_spent_eq_sum env time amounts rest spent ins keys _ _ _ h hinv
      · exact SpendLoop_spent_eq_sum env time amounts rest spent ins keys _ _ _ h hinv
      · rename_i amt signers heq
        simp only [add64] at h
        split at h
        · exact absurd h (by simp)
        · rename_i n heqn
          have hn : n = lookupAmt spent utxo.assetID + amt := by
            by_cases hc : u64max < lookupAmt spent utxo.assetID + amt
            · simp [hc] at heqn
            · simp [hc] at heqn
              omega
          refine SpendLoop_spent_eq_sum env time amounts rest _ _ _ _ _ _ h ?_
          intro a
          rw [lookupAmt_setAmt, sumAsset_append]
          by_cases ha : a = utxo.assetID
          · subst ha
            simp [hn, hinv utxo.assetID]
          · simp [ha, hinv a,
              show (utxo.assetID == a) = false by simpa using fun hh => ha hh.symm]

/-- `SpendLoop` keeps the input and signer slices the same length. -/
lemma SpendLoop_len (env : SpendEnv) (time : Nat) (amounts : AmtMap) :
    ∀ (utxos : List UTXO) (spent : AmtMap) (ins : List TransferableInput)
      (keys : List (List Nat)) spent' ins' keys',
      SpendLoop env time amounts utxos spent ins keys = .ok (spent', ins', keys') →
      ins.length = keys.length → ins'.length = keys'.length
  | [], spent, ins, keys, spent', ins', keys', h, hlen => by
    simp only [SpendLoop, Except.ok.injEq, Prod.mk.injEq] at h
    obtain ⟨h1, h2, h3⟩ := h
    subst h2; subst h3
    exact hlen
  | utxo :: rest, spent, ins, keys, spent', ins', keys', h, hlen => by
    simp only [SpendLoop] at h
    split at h
    · exact SpendLoop_len env time amounts rest spent ins keys _ _ _ h hlen
    · split at h
      · exact SpendLoop_len env time amounts rest spent ins keys _ _ _ h hlen
      · exact SpendLoop_len env time amounts rest spent ins keys _ _ _ h hlen
      · simp only [add64] at h
        split at h
        · exact absurd h (by simp)
        · refine SpendLoop_len env time amounts rest _ _ _ _ _ _ h ?_
          simp [hlen]

/-- C3: coin selection for transfers.  When `Spend` succeeds, the
returned inputs' summed per-asset amounts meet every requested
amount; any failure returns the Go zero results `nil, nil, nil`
alongside the error; and an unmet request after a completed scan
fails with the insufficient-funds error — never a silent partial
allocation. -/
theorem Spend_meets_requests_or_fails (env : SpendEnv) (time : Nat)
    (utxos : List UTXO) (amounts : AmtMap) :
    ((Spend env time utxos amounts).2.2.2 = none →
      ∀ p ∈ amounts, p.2 ≤ sumAsset (Spend env time utxos amounts).2.1 p.1) ∧
    (∀ e, (Spend env time utxos amounts).2.2.2 = some e →
      Spend env time utxos amounts = ([], [], [], some e)) ∧
    (∀ spent ins keys,
      SpendLoop env time amounts utxos [] [] [] = .ok (spent, ins, keys) →
      (∃ p ∈ amounts, lookupAmt spent p.1 < p.2) →
      ∃ a want has, Spend env time utxos amounts =
        ([], [], [], some (.insufficientFunds a want has))) := by
  refine ⟨?_, ?_, ?_⟩
  · intro h p hp
    rcases hloop : SpendLoop env time amounts utxos [] [] [] with e | ⟨spent₀, ins₀, keys₀⟩
    · simp [Spend, hloop] at h
    · rcases hfind : amounts.find? (fun q => decide (lookupAmt spent₀ q.1 < q.2)) with _ | q
      · have hmet : ¬ lookupAmt spent₀ p.1 < p.2 := by
          simpa using List.find?_eq_none.mp hfind p hp
        have hsum : lookupAmt spent₀ p.1 = sumAsset ins₀ p.1 :=
          SpendLoop_spent_eq_sum env time amounts utxos [] [] [] _ _ _ hloop
            (fun a => by simp [lookupAmt, sumAsset]) p.1
        have hlen : ins₀.length = keys₀.length :=
          SpendLoop_len env time amounts utxos [] [] [] _ _ _ hloop rfl
        have hperm : ((List.insertionSort pairLE (ins₀.zip keys₀)).map Prod.fst).Perm ins₀ := by
          have h1 := (List.perm_insertionSort pairLE (ins₀.zip keys₀)).map Prod.fst
          rwa [List.map_fst_zip ins₀ keys₀ (le_of_eq hlen)] at h1
        simp only [Spend, hloop, hfind, sortInputsWithSigners]
        rw [sumAsset_perm hperm p.1, ← hsum]
        omega
      · simp [Spend, hloop, hfind] at h
  · intro e h
    rcases hloop : SpendLoop env time amounts utxos [] [] [] with e' | ⟨spent₀, ins₀, keys₀⟩
    · simp only [Spend, hloop] at h ⊢
      simp at h
      simp [h]
    · rcases hfind : amounts.find? (fun q => decide (lookupAmt spent₀ q.1 < q.2)) with _ | q
      · simp [Spend, hloop, hfind, sortInputsWithSigners] at h
      · simp only [Spend, hloop, hfind] at h ⊢
        simp at h
        simp [h]
  · intro spent ins keys hloop hex
    obtain ⟨p, hp, hlt⟩ := hex
    rcases hfind : amounts.find? (fun q => decide (lookupAmt spent q.1 < q.2)) with _ | q
    · exact absurd hlt (by simpa using List.find?_eq_none.mp hfind p hp)
    · exact ⟨q.1, q.2, lookupAmt spent q.1, by simp [Spend, hloop, hfind]⟩

/-- The test keychain: output token 100 spends for 7 units with
signer key 1, token 101 for 5 units with signer key 2. -/
def spendEnv0 : SpendEnv where
  kcSpend := fun out _ =>
    if out == 100 then .transferIn 7 [1]
    else if out == 101 then .transferIn 5 [2]
    else .cantSpend

/-- Two spendable UTXOs of asset 10, deliberately out of locator
order. -/
def spendUtxos0 : List UTXO :=
  [⟨⟨2, 0⟩, 10, 100⟩, ⟨⟨1, 0⟩, 10, 101⟩]

theorem Spend_meets_requests_or_fails_witness :
    (∀ p ∈ [(10, 9)], p.2 ≤
      sumAsset (Spend spendEnv0 0 spendUtxos0 [(10, 9)]).2.1 p.1) ∧
    Spend spendEnv0 0 spendUtxos0 [(10, 20)] =
      ([], [], [], some (.insufficientFunds 10 20 12)) := by
  constructor
  · exact (Spend_meets_requests_or_fails spendEnv0 0 spendUtxos0 [(10, 9)]).1 (by decide)
  · exact (Spend_meets_requests_or_fails spendEnv0 0 spendUtxos0 [(10, 20)]).2.1
      (.insufficientFunds 10 20 12) (by decide)

lemma UTXOID.eq_of_fields {x y : UTXOID} (h1 : x.txID = y.txID)
    (h2 : x.outputIndex = y.outputIndex) : x = y := by
  cases x
  cases y
  simp_all

/-- Two locator-comparable pairs that compare below each other share
a locator. -/
lemma pairLE_antisymm_key {a b : TransferableInput × List Nat}
    (h1 : pairLE a b) (h2 : pairLE b a) : a.1.utxoID = b.1.utxoID := by
  simp only [pairLE, locLE] at h1 h2
  exact UTXOID.eq_of_fields (by omega) (by omega)

/-- Two sorted permutations of each other with pairwise-distinct
locators are equal: the sorted form is canonical. -/
lemma sorted_perm_eq_of_nodup_keys :
    ∀ (l₁ l₂ : List (TransferableInput × List Nat)), l₁.Perm l₂ →
      List.Pairwise pairLE l₁ → List.Pairwise pairLE l₂ →
      (l₁.map (fun p => p.1.utxoID)).Nodup → l₁ = l₂
  | [], l₂, hp, _, _, _ => hp.nil_eq
  | a :: t₁, [], hp, _, _, _ => absurd hp.length_eq (by simp)
  | a :: t₁, b :: t₂, hp, hs₁, hs₂, hnd => by
    by_cases hab : a = b
    · subst hab
      have ht : t₁.Perm t₂ := hp.cons_inv
      have hnd' : (t₁.map (fun p => p.1.utxoID)).Nodup := by
        simp only [List.map_cons, List.nodup_cons] at hnd
        exact hnd.2
      rw [sorted_perm_eq_of_nodup_keys t₁ t₂ ht (List.Pairwise.of_cons hs₁)
        (List.Pairwise.of_cons hs₂) hnd']
    · exfalso
      have hat2 : a ∈ t₂ := by
        rcases List.mem_cons.mp (hp.mem_iff.mp (List.mem_cons_self a t₁)) with h | h
        · exact absurd h hab
        · exact h
      have hbt1 : b ∈ t₁ := by
        rcases List.mem_cons.mp (hp.symm.mem_iff.mp (List.mem_cons_self b t₂)) with h | h
        · exact absurd h.symm hab
        · exact h
      have hba : pairLE b a := List.rel_of_sorted_cons hs₂ a hat2
      have hab' : pairLE a b := List.rel_of_sorted_cons hs₁ b hbt1
      have hkey : a.1.utxoID = b.1.utxoID := pairLE_antisymm_key hab' hba
      simp only [List.map_cons, List.nodup_cons] at hnd
      exact hnd.1 (hkey ▸ List.mem_map_of_mem _ hbt1)

/-- C7: coin-selection determinism.  `Spend` is a function of the
UTXO set, keychain, amount request, and clock reading, so repeated
calls agree; on success the returned input sequence is sorted by the
canonical locator ordering, in tandem with the signer-key-set
sequence; and sorting is canonical — any two selections that are
permutations of each other with distinct locators sort to identical
sequences. -/
theorem Spend_deterministic_canonical (env : SpendEnv) (time : Nat)
    (utxos : List UTXO) (amounts : AmtMap) :
    (Spend env time utxos amounts = Spend env time utxos amounts) ∧
    ((Spend env time utxos amounts).2.2.2 = none →
      (Spend env time utxos amounts).2.1.Pairwise locLE ∧
      ∃ l : List (TransferableInput × List Nat), List.Pairwise pairLE l ∧
        (Spend env time utxos amounts).2.1 = l.map Prod.fst ∧
        (Spend env time utxos amounts).2.2.1 = l.map Prod.snd) ∧
    (∀ l₁ l₂ : List (TransferableInput × List Nat), l₁.Perm l₂ →
      (l₁.map (fun p => p.1.utxoID)).Nodup →
      List.insertionSort pairLE l₁ = List.insertionSort pairLE l₂) := by
  refine ⟨rfl, ?_, ?_⟩
  · intro h
    rcases hloop : SpendLoop env time amounts utxos [] [] [] with e | ⟨spent₀, ins₀, keys₀⟩
    · simp [Spend, hloop] at h
    · rcases hfind : amounts.find? (fun q => decide (lookupAmt spent₀ q.1 < q.2)) with _ | q
      · have hsorted : List.Pairwise pairLE
            (List.insertionSort pairLE (ins₀.zip keys₀)) :=
          List.sorted_insertionSort pairLE (ins₀.zip keys₀)
        simp only [Spend, hloop, hfind, sortInputsWithSigners]
        refine ⟨List.pairwise_map.mpr hsorted, _, hsorted, rfl, rfl⟩
      · simp [Spend, hloop, hfind] at h
  · intro l₁ l₂ hperm hnd
    have hs₁ := List.sorted_insertionSort pairLE l₁
    have hs₂ := List.sorted_insertionSort pairLE l₂
    have hp : (List.insertionSort pairLE l₁).Perm (List.insertionSort pairLE l₂) :=
      ((List.perm_insertionSort pairLE l₁).trans hperm).trans
        (List.perm_insertionSort pairLE l₂).symm
    have hnd' : ((List.insertionSort pairLE l₁).map (fun p => p.1.utxoID)).Nodup :=
      (((List.perm_insertionSort pairLE l₁).map (fun p => p.1.utxoID)).nodup_iff).mpr hnd
    exact sorted_perm_eq_of_nodup_keys _ _ hp hs₁ hs₂ hnd'

theorem Spend_deterministic_canonical_witness :
    (Spend spendEnv0 0 spendUtxos0 [(10, 12)]).2.1.Pairwise locLE ∧
    List.insertionSort pairLE [(⟨⟨2, 0⟩, 10, 7⟩, [1]), (⟨⟨1, 0⟩, 10, 5⟩, [2])] =
      List.insertionSort pairLE [(⟨⟨1, 0⟩, 10, 5⟩, [2]), (⟨⟨2, 0⟩, 10, 7⟩, [1])] := by
  constructor
  · exact ((Spend_deterministic_canonical spendEnv0 0 spendUtxos0 [(10, 12)]).2.1
      (by decide)).1
  · exact (Spend_deterministic_canonical spendEnv0 0 spendUtxos0 [(10, 12)]).2.2
      _ _ (List.Perm.swap _ _ _) (by decide)

/-- C8: overflow safety.  In both scan loops the per-asset total is
accumulated with checked 64-bit addition: a selected input whose
amount would push the running total past `u64max` aborts the loop
with `errSpendOverflow`, and a loop error surfaces from `Spend` /
`SpendAll` as the Go zero results `nil, nil, nil` plus that error —
no result is returned. -/
theorem Spend_overflow_checked (env : SpendEnv) (time : Nat) :
    (∀ (amounts spent : AmtMap) (utxo : UTXO) (rest : List UTXO)
        (ins : List TransferableInput) (keys : List (List Nat))
        (amt : Nat) (signers : List Nat),
      lookupAmt spent utxo.assetID < lookupAmt amounts utxo.assetID →
      env.kcSpend utxo.out time = .transferIn amt signers →
      u64max < lookupAmt spent utxo.assetID + amt →
      SpendLoop env time amounts (utxo :: rest) spent ins keys =
        .error .spendOverflow) ∧
    (∀ (amounts : AmtMap) (utxos : List UTXO) (e : VMErr),
      SpendLoop env time amounts utxos [] [] [] = .error e →
      Spend env time utxos amounts = ([], [], [], some e)) ∧
    (∀ (spent : AmtMap) (utxo : UTXO) (rest : List UTXO)
        (ins : List TransferableInput) (keys : List (List Nat))
        (amt : Nat) (signers : List Nat),
      env.kcSpend utxo.out time = .transferIn amt signers →
      u64max < lookupAmt spent utxo.assetID + amt →
      SpendAllLoop env time (utxo :: rest) spent ins keys =
        .error .spendOverflow) ∧
    (∀ (utxos : List UTXO) (e : VMErr),
      SpendAllLoop env time utxos [] [] [] = .error e →
      SpendAll env time utxos = ([], [], [], some e)) := by
  refine ⟨?_, ?_, ?_, ?_⟩
  · intro amounts spent utxo rest ins keys amt signers hsel hkc hover
    simp [SpendLoop, Nat.not_le_of_lt hsel, hkc, add64, hover]
  · intro amounts utxos e h
    simp [Spend, h]
  · intro spent utxo rest ins keys amt signers hkc hover
    simp [SpendAllLoop, hkc, add64, hover]
  · intro utxos e h
    simp [SpendAll, h]

/-- A keychain producing amounts that overflow uint64 when summed:
output token 0 spends for 5 units, token 1 for the full `u64max`. -/
def spendEnvBig : SpendEnv where
  kcSpend := fun out _ =>
    if out == 0 then .transferIn 5 [9]
    else .transferIn u64max [9]

/-- Two UTXOs of asset 1 whose combined amounts exceed uint64. -/
def spendUtxosBig : List UTXO :=
  [⟨⟨1, 0⟩, 1, 0⟩, ⟨⟨1, 1⟩, 1, 1⟩]

theorem Spend_overflow_checked_witness :
    SpendLoop spendEnvBig 0 [(1, 10)] [⟨⟨1, 1⟩, 1, 1⟩] [(1, 5)] [] [] =
      .error .spendOverflow ∧
    Spend spendEnvBig 0 spendUtxosBig [(1, 10)] =
      ([], [], [], some .spendOverflow) ∧
    SpendAllLoop spendEnvBig 0 [⟨⟨1, 1⟩, 1, 1⟩] [(1, 5)] [] [] =
      .error .spendOverflow ∧
    SpendAll spendEnvBig 0 spendUtxosBig =
      ([], [], [], some .spendOverflow) := by
  refine ⟨?_, ?_, ?_, ?_⟩
  · exact (Spend_overflow_checked spendEnvBig 0).1 [(1, 10)] [(1, 5)]
      ⟨⟨1, 1⟩, 1, 1⟩ [] [] [] u64max [9] (by decide) (by decide) (by decide)
  · exact (Spend_overflow_checked spendEnvBig 0).2.1 [(1, 10)] spendUtxosBig
      .spendOverflow rfl
  · exact (Spend_overflow_checked spendEnvBig 0).2.2.1 [(1, 5)]
      ⟨⟨1, 1⟩, 1, 1⟩ [] [] [] u64max [9] (by decide) (by decide)
  · exact (Spend_overflow_checked spendEnvBig 0).2.2.2 spendUtxosBig
      .spendOverflow rfl

/-! ### Transfer verification (`getFx`, `verifyTransferOfUTXO`) -/

/-- A credential value, abstracted to the concrete kind
(`reflect.TypeOf`) used for the registry lookup. -/
structure Cred where
  kind : Nat
deriving DecidableEq, Repr

/-- The registry surroundings of transfer verification: the fx data
of `verifyFxUsage`, the `typeToFxIndex` registry mapping a concrete
kind to its registered extension index, and the registered
extension's own `VerifyTransfer`, abstracted per extension index. -/
structure VerifyEnv where
  fxEnv : FxEnv
  typeToFxIndex : Nat → Option Nat
  fxVerifyTransfer : Nat → Nat → TransferableInput → Cred → Nat → Option VMErr

/-- `VM.getFx`: look the value's kind up in `typeToFxIndex`; an
unregistered kind fails with `errUnknownFx`. -/
def getFx (env : VerifyEnv) (cred : Cred) : Except VMErr Nat :=
  match env.typeToFxIndex cred.kind with
  | none => .error .unknownFx
  | some fx => .ok fx

/-- `VM.verifyTransferOfUTXO`: resolve the credential's extension,
require the consumed UTXO and the input to name the same asset,
require that asset to support the extension (via the capability
cache), then delegate to the extension's `VerifyTransfer`. -/
def verifyTransferOfUTXO (env : VerifyEnv) (c : FxCache) (tx : Nat)
    (tin : TransferableInput) (cred : Cred) (utxo : UTXO) :
    Option VMErr × FxCache :=
  match getFx env cred with
  | .error e => (some e, c)
  | .ok fxIndex =>
    if utxo.assetID != tin.assetID then (some .assetIDMismatch, c)
    else
      match verifyFxUsage env.fxEnv c fxIndex tin.assetID with
      | (false, c') => (some .incompatibleFx, c')
      | (true, c') => (env.fxVerifyTransfer fxIndex tx tin cred utxo.out, c')

lemma foldl_bsAdd_no_match (fxID : Nat) :
    ∀ (states : List Nat) (acc : Nat), states.contains fxID = false →
      states.foldl (fun acc stFx => if stFx == fxID then bsAdd acc fxID else acc) acc = acc
  | [], acc, _ => rfl
  | st :: rest, acc, h => by
    have h1 : (fxID == st) = false ∧ rest.contains fxID = false := by
      simpa using h
    have hst : (st == fxID) = false := by
      cases hb : st == fxID
      · rfl
      · have heq : st = fxID := by simpa using hb
        rw [heq] at h1
        simp at h1
    simp only [List.foldl_cons, hst, Bool.false_eq_true, if_false]
    exact foldl_bsAdd_no_match fxID rest acc h1.2

/-- C6: extension capability check on transfers.  A credential whose
kind is not in the registry rejects with `errUnknownFx` before any
capability check (the cache is untouched); a registered credential
spending an asset whose creation transaction declares support only
for other extension indices rejects with `errIncompatibleFx`. -/
theorem verifyTransferOfUTXO_capability (env : VerifyEnv) (c : FxCache)
    (tx : Nat) (tin : TransferableInput) (cred : Cred) (utxo : UTXO) :
    (env.typeToFxIndex cred.kind = none →
      verifyTransferOfUTXO env c tx tin cred utxo = (some .unknownFx, c)) ∧
    (∀ i, env.typeToFxIndex cred.kind = some i →
      utxo.assetID = tin.assetID →
      c.find? (fun p => p.1 == tin.assetID) = none →
      (env.fxEnv.txStatus tin.assetID).Fetched = true →
      ∀ states, env.fxEnv.createAssetStates tin.assetID = some states →
        states.contains i = false →
        (verifyTransferOfUTXO env c tx tin cred utxo).1 =
          some .incompatibleFx) := by
  constructor
  · intro h
    simp [verifyTransferOfUTXO, getFx, h]
  · intro i hreg hasset hcold hst states hstates hnosup
    have hderive : verifyFxUsage env.fxEnv c i tin.assetID =
        (false, cachePut c tin.assetID 0) := by
      simp only [verifyFxUsage, cacheGet, hcold, hst, Bool.not_true, if_false,
        hstates, Bool.false_eq_true]
      rw [foldl_bsAdd_no_match i states 0 hnosup]
      simp [bsContains, Nat.zero_testBit]
    simp [verifyTransferOfUTXO, getFx, hreg, hasset, hderive]

/-- The spec scenario: extension 0 is the only one asset 5 declares;
credential kind 1 maps to extension index 1. -/
def verifyEnv1 : VerifyEnv where
  fxEnv :=
    { txStatus := fun i => if i == 5 then .processing else .unknown
      createAssetStates := fun i => if i == 5 then some [0] else none }
  typeToFxIndex := fun k => if k ≤ 1 then some k else none
  fxVerifyTransfer := fun _ _ _ _ _ => none

theorem verifyTransferOfUTXO_capability_witness :
    verifyTransferOfUTXO verifyEnv1 [] 0 ⟨⟨3, 0⟩, 5, 0⟩ ⟨7⟩ ⟨⟨3, 0⟩, 5, 0⟩ =
      (some .unknownFx, []) ∧
    (verifyTransferOfUTXO verifyEnv1 [] 0 ⟨⟨3, 0⟩, 5, 0⟩ ⟨1⟩ ⟨⟨3, 0⟩, 5, 0⟩).1 =
      some .incompatibleFx := by
  constructor
  · exact (verifyTransferOfUTXO_capability verifyEnv1 [] 0 ⟨⟨3, 0⟩, 5, 0⟩ ⟨7⟩
      ⟨⟨3, 0⟩, 5, 0⟩).1 rfl
  · exact (verifyTransferOfUTXO_capability verifyEnv1 [] 0 ⟨⟨3, 0⟩, 5, 0⟩ ⟨1⟩
      ⟨⟨3, 0⟩, 5, 0⟩).2 1 rfl rfl rfl rfl [0] rfl (by decide)

/-! ### Minting (`Mint`) -/

/-- The outcome of `kc.Spend(out, time)` followed by the
`*secp256k1fx.Input` cast in `Mint`: failure, an input of another
kind, or a secp input with its signature indices and signer keys. -/
inductive MintSpendResult
  | cantSpend
  | notSecpInput (signers : List Nat)
  | secpInput (sigIndices : List Nat) (signers : List Nat)
deriving DecidableEq, Repr

/-- What `Mint` asks of its collaborators per output token: whether
the `*secp256k1fx.MintOutput` cast succeeds, and what the keychain
yields on it. -/
structure MintEnv where
  isMintOut : Nat → Bool
  kcSpendMint : Nat → Nat → MintSpendResult

/-- A minting `txs.Operation` as assembled by `Mint`: the asset, the
consumed locator, the minted amount, the recipient (the Go `to`
address), and the signature indices of the mint input. -/
structure MintOp where
  assetID : Nat
  utxoID : UTXOID
  amount : Nat
  toAddr : Nat
  sigIndices : List Nat
deriving DecidableEq, Repr

/-- Go map read that distinguishes a missing key (`delete`d) from a
zero value. -/
def findAmt (m : AmtMap) (a : Nat) : Option Nat :=
  (m.find? (fun p => p.1 == a)).map (fun p => p.2)

/-- Go `delete(amounts, assetID)`. -/
def delAmt (m : AmtMap) (a : Nat) : AmtMap :=
  m.filter (fun p => p.1 != a)

/-- The scan loop of `VM.Mint`: skip assets with no (or a zero)
requested amount, skip outputs that are not secp mint outputs or
that the keychain cannot authorize as a secp input, and on a match
assemble the mint operation and delete the asset from the
caller-supplied amounts map. -/
def MintLoop (env : MintEnv) (time : Nat) (toAddr : Nat) :
    List UTXO → AmtMap → List MintOp → List (List Nat) →
    List MintOp × List (List Nat) × AmtMap
  | [], amounts, ops, keys => (ops, keys, amounts)
  | utxo :: rest, amounts, ops, keys =>
    let assetID := utxo.assetID
    let amount := lookupAmt amounts assetID
    if amount == 0 then MintLoop env time toAddr rest amounts ops keys
    else if ¬ env.isMintOut utxo.out then MintLoop env time toAddr rest amounts ops keys
    else
      match env.kcSpendMint utxo.out time with
      | .cantSpend => MintLoop env time toAddr rest amounts ops keys
      | .notSecpInput _ => MintLoop env time toAddr rest amounts ops keys
      | .secpInput sigs signers =>
        MintLoop env time toAddr rest (delAmt amounts assetID)
          (ops ++ [⟨assetID, utxo.utxoID, amount, toAddr, sigs⟩]) (keys ++ [signers])

/-- The locator ordering on mint operations, modelling the canonical
sort of `txs.SortOperationsWithSigners`. -/
def opLE (a b : MintOp) : Prop :=
  a.utxoID.txID < b.utxoID.txID ∨
    (a.utxoID.txID = b.utxoID.txID ∧ a.utxoID.outputIndex ≤ b.utxoID.outputIndex)

instance : DecidableRel opLE := fun a b => by
  unfold opLE
  infer_instance

/-- `opLE` lifted to an operation paired with its signer set. -/
def opPairLE (p q : MintOp × List Nat) : Prop :=
  opLE p.1 q.1

instance : DecidableRel opPairLE := fun p q => by
  unfold opPairLE
  infer_instance

/-- `VM.Mint`: scan, then fail with `errAddressesCantMintAsset` if
any requested amount is left, else sort the operations with their
signers.  The quadruple mirrors Go's `(ops, keys, err)` plus the
caller-supplied amounts map as the loop's deletions left it — Go
mutates that map in place, so it is part of the observable result. -/
def Mint (env : MintEnv) (time : Nat) (utxos : List UTXO) (amounts : AmtMap)
    (toAddr : Nat) : List MintOp × List (List Nat) × Option VMErr × AmtMap :=
  match MintLoop env time toAddr utxos amounts [] [] with
  | (ops, keys, amounts') =>
    if amounts'.any (fun p => decide (0 < p.2)) then
      ([], [], some .cantMintAsset, amounts')
    else
      let sorted := List.insertionSort opPairLE (ops.zip keys)
      (sorted.map Prod.fst, sorted.map Prod.snd, none, amounts')

lemma findAmt_delAmt (m : AmtMap) (a b : Nat) :
    findAmt (delAmt m a) b = if b = a then none else findAmt m b := by
  induction m with
  | nil => by_cases h : b = a <;> simp [delAmt, findAmt, h]
  | cons p rest ih =>
    by_cases hpa : p.1 = a
    · have hb : (p.1 != a) = false := by simp [hpa]
      simp only [delAmt, List.filter_cons, hb, Bool.false_eq_true, if_false]
      by_cases hba : b = a
      · simpa [delAmt, hba] using ih
      · have hpb : (p.1 == b) = false := by
          simp [hpa, show ¬ a = b from fun hh => hba hh.symm]
        have hskip : findAmt (p :: rest) b = findAmt rest b := by
          simp [findAmt, List.find?, hpb]
        rw [hskip, show (List.filter (fun q => q.1 != a) rest) = delAmt rest a
          from rfl, ih]
    · have hb : (p.1 != a) = true := by simp [hpa]
      simp only [delAmt, List.filter_cons, hb, if_true]
      by_cases hpb : p.1 = b
      · have hba : ¬ b = a := fun hh => hpa (by rw [hpb, hh])
        simp [findAmt, List.find?, show (p.1 == b) = true by simpa using hpb, hba]
      · have hpb' : (p.1 == b) = false := by simpa using hpb
        have hskip1 : findAmt (p :: List.filter (fun q => q.1 != a) rest) b =
            findAmt (List.filter (fun q => q.1 != a) rest) b := by
          simp [findAmt, List.find?, hpb']
        have hskip2 : findAmt (p :: rest) b = findAmt rest b := by
          simp [findAmt, List.find?, hpb']
        rw [hskip1, hskip2]
        simpa [delAmt] using ih

/-- A deleted key stays deleted through the rest of the scan. -/
lemma MintLoop_del_persists (env : MintEnv) (time : Nat) (toAddr : Nat) :
    ∀ (utxos : List UTXO) (amounts : AmtMap) (ops : List MintOp)
      (keys : List (List Nat)) (a : Nat),
      findAmt amounts a = none →
      findAmt (MintLoop env time toAddr utxos amounts ops keys).2.2 a = none
  | [], amounts, ops, keys, a, h => h
  | utxo :: rest, amounts, ops, keys, a, h => by
    by_cases h0 : (lookupAmt amounts utxo.assetID == 0) = true
    · simp only [MintLoop, h0, if_true]
      exact MintLoop_del_persists env time toAddr rest amounts ops keys a h
    · by_cases h1 : env.isMintOut utxo.out = true
      · rcases hkc : env.kcSpendMint utxo.out time with _ | signers | ⟨sigs, signers⟩
        · simp only [MintLoop, h0, if_false, h1, not_true, hkc]
          exact MintLoop_del_persists env time toAddr rest amounts ops keys a h
        · simp only [MintLoop, h0, if_false, h1, not_true, hkc]
          exact MintLoop_del_persists env time toAddr rest amounts ops keys a h
        · simp only [MintLoop, h0, if_false, h1, not_true, hkc]
          refine MintLoop_del_persists env time toAddr rest _ _ _ a ?_
          rw [findAmt_delAmt]
          by_cases hb : a = utxo.assetID <;> simp [hb, h]
      · simp only [MintLoop, h0, if_false, h1, not_false_iff, if_true]
        exact MintLoop_del_persists env time toAddr rest amounts ops keys a h

/-- The accumulators pass through `MintLoop` untouched apart from
appends. -/
lemma MintLoop_acc (env : MintEnv) (time : Nat) (toAddr : Nat) :
    ∀ (utxos : List UTXO) (amounts : AmtMap) (ops : List MintOp)
      (keys : List (List Nat)),
      MintLoop env time toAddr utxos amounts ops keys =
        (ops ++ (MintLoop env time toAddr utxos amounts [] []).1,
         keys ++ (MintLoop env time toAddr utxos amounts [] []).2.1,
         (MintLoop env time toAddr utxos amounts [] []).2.2)
  | [], amounts, ops, keys => by simp [MintLoop]
  | utxo :: rest, amounts, ops, keys => by
    by_cases h0 : (lookupAmt amounts utxo.assetID == 0) = true
    · simp only [MintLoop, h0, if_true]
      exact MintLoop_acc env time toAddr rest amounts ops keys
    · by_cases h1 : env.isMintOut utxo.out = true
      · rcases hkc : env.kcSpendMint utxo.out time with _ | signers | ⟨sigs, signers⟩
        · simp only [MintLoop, h0, if_false, h1, not_true, hkc]
          exact MintLoop_acc env time toAddr rest amounts ops keys
        · simp only [MintLoop, h0, if_false, h1, not_true, hkc]
          exact MintLoop_acc env time toAddr rest amounts ops keys
        · simp only [MintLoop, h0, if_false, h1, not_true, hkc, List.nil_append]
          rw [MintLoop_acc env time toAddr rest _ (ops ++ [_]) (keys ++ [_]),
            MintLoop_acc env time toAddr rest _ [_] [_]]
          simp
      · simp only [MintLoop, h0, if_false, h1, not_false_iff, if_true]
        exact MintLoop_acc env time toAddr rest amounts ops keys

lemma MintLoop_acc_ops (env : MintEnv) (time : Nat) (toAddr : Nat)
    (utxos : List UTXO) (amounts : AmtMap) (ops : List MintOp)
    (keys : List (List Nat)) :
    (MintLoop env time toAddr utxos amounts ops keys).1 =
      ops ++ (MintLoop env time toAddr utxos amounts [] []).1 := by
  rw [MintLoop_acc]

lemma MintLoop_acc_amts (env : MintEnv) (time : Nat) (toAddr : Nat)
    (utxos : List UTXO) (amounts : AmtMap) (ops : List MintOp)
    (keys : List (List Nat)) :
    (MintLoop env time toAddr utxos amounts ops keys).2.2 =
      (MintLoop env time toAddr utxos amounts [] []).2.2 := by
  rw [MintLoop_acc]

/-- Every asset of an operation selected by the scan is deleted from
the amounts map by the end of the scan. -/
lemma MintLoop_sel_deleted (env : MintEnv) (time : Nat) (toAddr : Nat) :
    ∀ (utxos : List UTXO) (amounts : AmtMap) (op : MintOp),
      op ∈ (MintLoop env time toAddr utxos amounts [] []).1 →
      findAmt (MintLoop env time toAddr utxos amounts [] []).2.2 op.assetID = none
  | [], amounts, op, h => absurd h (by simp [MintLoop])
  | utxo :: rest, amounts, op, h => by
    by_cases h0 : (lookupAmt amounts utxo.assetID == 0) = true
    · simp only [MintLoop, h0, if_true] at h ⊢
      exact MintLoop_sel_deleted env time toAddr rest amounts op h
    · by_cases h1 : env.isMintOut utxo.out = true
      · rcases hkc : env.kcSpendMint utxo.out time with _ | signers | ⟨sigs, signers⟩
        · simp only [MintLoop, h0, if_false, h1, not_true, hkc] at h ⊢
          exact MintLoop_sel_deleted env time toAddr rest amounts op h
        · simp only [MintLoop, h0, if_false, h1, not_true, hkc] at h ⊢
          exact MintLoop_sel_deleted env time toAddr rest amounts op h
        · simp only [MintLoop, h0, Bool.false_eq_true, if_false, h1, not_true,
            hkc, List.nil_append] at h ⊢
          rw [MintLoop_acc_ops] at h
          rw [MintLoop_acc_amts]
          simp only [List.mem_append, List.mem_singleton] at h
          rcases h with h | h
          · simp only [h]
            exact MintLoop_del_persists env time toAddr rest _ [] [] utxo.assetID
              (by rw [findAmt_delAmt]; simp)
          · exact MintLoop_sel_deleted env time toAddr rest _ op h
      · simp only [MintLoop, h0, if_false, h1, not_false_iff, if_true] at h ⊢
        exact MintLoop_sel_deleted env time toAddr rest amounts op h

/-- An asset no selected operation names keeps its map entry. -/
lemma MintLoop_frame (env : MintEnv) (time : Nat) (toAddr : Nat) :
    ∀ (utxos : List UTXO) (amounts : AmtMap) (a : Nat),
      (∀ op ∈ (MintLoop env time toAddr utxos amounts [] []).1, op.assetID ≠ a) →
      findAmt (MintLoop env time toAddr utxos amounts [] []).2.2 a = findAmt amounts a
  | [], amounts, a, h => rfl
  | utxo :: rest, amounts, a, h => by
    by_cases h0 : (lookupAmt amounts utxo.assetID == 0) = true
    · simp only [MintLoop, h0, if_true] at h ⊢
      exact MintLoop_frame env time toAddr rest amounts a h
    · by_cases h1 : env.isMintOut utxo.out = true
      · rcases hkc : env.kcSpendMint utxo.out time with _ | signers | ⟨sigs, signers⟩
        · simp only [MintLoop, h0, if_false, h1, not_true, hkc] at h ⊢
          exact MintLoop_frame env time toAddr rest amounts a h
        · simp only [MintLoop, h0, if_false, h1, not_true, hkc] at h ⊢
          exact MintLoop_frame env time toAddr rest amounts a h
        · simp only [MintLoop, h0, Bool.false_eq_true, if_false, h1, not_true,
            hkc, List.nil_append] at h ⊢
          rw [MintLoop_acc_ops] at h
          rw [MintLoop_acc_amts]
          have hne : utxo.assetID ≠ a := by
            refine h ⟨utxo.assetID, utxo.utxoID, lookupAmt amounts utxo.assetID,
              toAddr, sigs⟩ ?_
            simp
          have hrec := MintLoop_frame env time toAddr rest (delAmt amounts utxo.assetID) a
            (fun op hop => h op (by simp [hop]))
          rw [hrec, findAmt_delAmt]
          simp [show ¬ a = utxo.assetID from fun hh => hne hh.symm]
      · simp only [MintLoop, h0, if_false, h1, not_false_iff, if_true] at h ⊢
        exact MintLoop_frame env time toAddr rest amounts a h

/-- C9: `Mint` mutates the caller-supplied per-asset amounts map.
The map handed back (modelling the in-place mutation) is exactly the
scan's result whether the call succeeds or fails; every asset for
which a covering mint operation was selected has been deleted from
it; assets no selected operation covers keep their entries; and on
success every returned operation's asset has been deleted, so the
map holds only assets that were not minted. -/
theorem Mint_mutates_amounts (env : MintEnv) (time : Nat) (utxos : List UTXO)
    (amounts : AmtMap) (toAddr : Nat) :
    ((Mint env time utxos amounts toAddr).2.2.2 =
      (MintLoop env time toAddr utxos amounts [] []).2.2) ∧
    (∀ op ∈ (MintLoop env time toAddr utxos amounts [] []).1,
      findAmt (Mint env time utxos amounts toAddr).2.2.2 op.assetID = none) ∧
    (∀ a, (∀ op ∈ (MintLoop env time toAddr utxos amounts [] []).1, op.assetID ≠ a) →
      findAmt (Mint env time utxos amounts toAddr).2.2.2 a = findAmt amounts a) ∧
    ((Mint env time utxos amounts toAddr).2.2.1 = none →
      ∀ op ∈ (Mint env time utxos amounts toAddr).1,
        findAmt (Mint env time utxos amounts toAddr).2.2.2 op.assetID = none) := by
  have hsplit : MintLoop env time toAddr utxos amounts [] [] =
      ((MintLoop env time toAddr utxos amounts [] []).1,
       (MintLoop env time toAddr utxos amounts [] []).2.1,
       (MintLoop env time toAddr utxos amounts [] []).2.2) := rfl
  have hmap : (Mint env time utxos amounts toAddr).2.2.2 =
      (MintLoop env time toAddr utxos amounts [] []).2.2 := by
    simp only [Mint]
    split <;> rfl
  refine ⟨hmap, ?_, ?_, ?_⟩
  · intro op hop
    rw [hmap]
    exact MintLoop_sel_deleted env time toAddr utxos amounts op hop
  · intro a ha
    rw [hmap]
    exact MintLoop_frame env time toAddr utxos amounts a ha
  · intro hok op hop
    rw [hmap]
    refine MintLoop_sel_deleted env time toAddr utxos amounts op ?_
    simp only [Mint] at hok hop
    rcases hcheck : (MintLoop env time toAddr utxos amounts [] []).2.2.any
        (fun p => decide (0 < p.2)) with _ | _
    · rw [hsplit] at hop
      simp only [hcheck, Bool.false_eq_true, if_false] at hop
      obtain ⟨q, hq, hfst⟩ := List.mem_map.mp hop
      have hzip := (List.mem_insertionSort opPairLE).mp hq
      exact hfst ▸ (List.of_mem_zip hzip).1
    · rw [hsplit] at hok
      simp [hcheck] at hok

/-- A mintable secp output for asset 3 at token 50; asset 4 has no
covering UTXO. -/
def mintEnv0 : MintEnv where
  isMintOut := fun out => out == 50
  kcSpendMint := fun out _ =>
    if out == 50 then .secpInput [0] [7] else .cantSpend

theorem Mint_mutates_amounts_witness :
    (Mint mintEnv0 0 [⟨⟨6, 0⟩, 3, 50⟩] [(3, 5), (4, 2)] 11).2.2.2 = [(4, 2)] ∧
    findAmt (Mint mintEnv0 0 [⟨⟨6, 0⟩, 3, 50⟩] [(3, 5), (4, 2)] 11).2.2.2 3 =
      none ∧
    findAmt (Mint mintEnv0 0 [⟨⟨6, 0⟩, 3, 50⟩] [(3, 5), (4, 2)] 11).2.2.2 4 =
      findAmt [(3, 5), (4, 2)] 4 := by
  refine ⟨?_, ?_, ?_⟩
  · rw [(Mint_mutates_amounts mintEnv0 0 [⟨⟨6, 0⟩, 3, 50⟩] [(3, 5), (4, 2)] 11).1]
    decide
  · exact (Mint_mutates_amounts mintEnv0 0 [⟨⟨6, 0⟩, 3, 50⟩]
      [(3, 5), (4, 2)] 11).2.1 ⟨3, ⟨6, 0⟩, 5, 11, [0]⟩ (by decide)
  · exact (Mint_mutates_amounts mintEnv0 0 [⟨⟨6, 0⟩, 3, 50⟩]
      [(3, 5), (4, 2)] 11).2.2.1 4 (by decide)

/-! ### Transaction issuance (`IssueTx`) -/

/-- The VM state `IssueTx` can touch: the `bootstrapped` flag (set
only once normal operations start), the persisted transaction store,
and the batch scheduler. -/
structure VMState where
  bootstrapped : Bool
  store : List (Nat × Status)
  sched : SchedState
deriving DecidableEq, Repr

/-- The collaborators `IssueTx` invokes after the bootstrap check:
`parseTx` (which parses, syntactically verifies, and may persist the
transaction with status Processing), and
`verifyWithoutCacheWrites`.  Both are abstracted as functions from
the byte payload and state, so `IssueTx`'s behaviour can be stated
for every possible parser and verifier. -/
structure IssueEnv where
  parseTx : VMState → List Nat → Except VMErr Nat × VMState
  verifyWCW : VMState → Nat → Option VMErr

/-- `VM.IssueTx`: refuse with the zero id and `errBootstrapping`
while the VM is not bootstrapped — before parsing, verification,
persistence, or batching; otherwise parse, verify, and enqueue into
the batch scheduler.  The pair mirrors Go's `(ids.ID, error)`
multi-value return. -/
def IssueTx (env : IssueEnv) (vm : VMState) (b : List Nat) (free : Bool) :
    (Nat × Option VMErr) × VMState :=
  if ¬ vm.bootstrapped then ((zeroID, some .bootstrapping), vm)
  else
    match env.parseTx vm b with
    | (.error e, vm') => ((zeroID, some e), vm')
    | (.ok txID, vm') =>
      match env.verifyWCW vm' txID with
      | some e => ((zeroID, some e), vm')
      | none => ((txID, none), { vm' with sched := issueTx vm'.sched txID free })

/-- C10: `IssueTx` on a not-yet-bootstrapped VM returns the zero
transaction id with `errBootstrapping` and leaves the state exactly
as it was — for every parser and verifier, so none of parsing,
verification, persistence, or batching can have run. -/
theorem IssueTx_bootstrapping (env : IssueEnv) (vm : VMState) (b : List Nat)
    (free : Bool) :
    vm.bootstrapped = false →
    IssueTx env vm b free = ((zeroID, some .bootstrapping), vm) := by
  intro h
  simp [IssueTx, h]

/-- An environment whose parser and verifier always succeed, and a
non-bootstrapped VM with a pending batch. -/
def issueEnv0 : IssueEnv where
  parseTx := fun vm _ => (.ok 3, vm)
  verifyWCW := fun _ _ => none

theorem IssueTx_bootstrapping_witness :
    IssueTx issueEnv0 ⟨false, [(2, .processing)], ⟨[5], true, 0⟩⟩ [1, 2] true =
      ((zeroID, some .bootstrapping), ⟨false, [(2, .processing)], ⟨[5], true, 0⟩⟩) :=
  IssueTx_bootstrapping issueEnv0 ⟨false, [(2, .processing)], ⟨[5], true, 0⟩⟩
    [1, 2] true rfl

end AvmVM


